import Mathlib

/-!
Verification development for the kaskade metadata-aggregation and
consumption engine (src/kaskade/services.py).

The embedding models the two cores of the file:

* `ConsumerService.consume` (the retry-bounded polling loop) as a
  recursive function over an explicit, eventually-silent poll stream
  (`List (Option Msg)`; once the list is exhausted every further poll
  returns nothing, modelling broker silence).  Deserialization is
  abstracted: a record carries the deserialized string views
  (`keyStr`, `valueStr`, header `valueStr`) that the filters consume;
  the timestamp/date formatting and the key/value `Format` machinery
  are presentation detail not touched by any claim.

* `TopicService.all` (`_map_topics` + `_map_groups_into_topics`) as
  pure functions over broker responses (`Broker`), together with a
  trace of consumer-handle events (`Ev`) recording which consumer
  handle performed each committed-offset fetch and watermark lookup,
  and which lookups logged a swallowed exception.
-/

namespace Kaskade

/-- The librdkafka sentinel for an absent committed offset. -/
def OFFSET_INVALID : Int := -1001

/-- A record header; `valueStr` is the value decoded with the String
deserializer, which is what `_match_header` compares against. -/
structure Header where
  key : String
  valueStr : String
deriving DecidableEq, Repr

/-- One message as returned by `consumer.poll`: either it carries a
broker-reported error (`error = some e`) or it is a data record.
String fields are the deserialized views used by the filters. -/
structure Msg where
  error : Option String := none
  partition : Int := 0
  offset : Int := 0
  keyStr : String := ""
  valueStr : String := ""
  headers : List Header := []
deriving DecidableEq, Repr

/-- The model of `kaskade.models.Record` restricted to the fields the
consume loop reads: identity plus the deserialized key/value/headers. -/
structure Record where
  topic : String
  partition : Int
  offset : Int
  keyStr : String
  valueStr : String
  headers : List Header
deriving DecidableEq, Repr

/-- Building a `Record` from a polled message, as in
`ConsumerService.consume` lines 130-153 of services.py. -/
def mkRecord (topic : String) (m : Msg) : Record :=
  { topic := topic
    partition := m.partition
    offset := m.offset
    keyStr := m.keyStr
    valueStr := m.valueStr
    headers := m.headers }

/-- Boolean list containment of one list at the head of another. -/
def isPrefixB [DecidableEq α] : List α → List α → Bool
  | [], _ => true
  | _ :: _, [] => false
  | a :: as, b :: bs => a == b && isPrefixB as bs

/-- Boolean substring test on character lists. -/
def isInfixB [DecidableEq α] : List α → List α → Bool
  | n, [] => n.isEmpty
  | n, b :: bs => isPrefixB n (b :: bs) || isInfixB n bs

/-- The Python `needle in haystack` substring test on strings. -/
def strContains (haystack needle : String) : Bool :=
  isInfixB needle.data haystack.data

/-- Model of `_match_header`: true when some header value string
contains the filter as a substring.  (In `consume` the headers
argument is always the list built at record construction, never the
None branch of the source, so the model takes a list.) -/
def matchHeader (headerFilter : String) (headers : List Header) : Bool :=
  headers.any (fun h => strContains h.valueStr headerFilter)

/-- The filter arguments of `consume`; `none` is Python None. -/
structure Filters where
  partition : Option Int := none
  key : Option String := none
  value : Option String := none
  header : Option String := none
deriving DecidableEq, Repr

/-- The filter cascade of `consume` lines 155-169: a record is kept iff
no active filter rejects it.  A string filter is active only when it is
truthy in Python, i.e. present and nonempty; the partition filter is
active whenever it is not None. -/
def passes (fl : Filters) (r : Record) : Bool :=
  (match fl.partition with
   | none => true
   | some p => r.partition == p)
  && (match fl.key with
      | none => true
      | some s => s == "" || strContains r.keyStr s)
  && (match fl.value with
      | none => true
      | some s => s == "" || strContains r.valueStr s)
  && (match fl.header with
      | none => true
      | some s => s == "" || matchHeader s r.headers)

/-- The construction-time configuration of `ConsumerService` used by
`consume` (the per-poll timeout only parameterizes each poll and is
absorbed into the stream model). -/
structure Cfg where
  topic : String
  pageSize : Int := 25
  maxRetries : Int := 5
deriving DecidableEq, Repr

/-- The polling loop of `ConsumerService.consume` (services.py lines
104-173).  `stream` is the sequence of outstanding poll results; when
it is exhausted every poll returns `none` (silence).  The result is
the accumulated page together with the number of polls issued, or the
broker-reported error that aborted the call. -/
def consumeGo (cfg : Cfg) (fl : Filters) :
    List (Option Msg) → List Record → Int → Nat → Except String (List Record × Nat)
  | stream, records, retries, polls =>
    if ¬ ((records.length : Int) < cfg.pageSize) then .ok (records, polls)
    else if cfg.maxRetries ≤ retries then .ok (records, polls)
    else
      match stream with
      | [] => consumeGo cfg fl [] records (retries + 1) (polls + 1)
      | none :: rest => consumeGo cfg fl rest records (retries + 1) (polls + 1)
      | some m :: rest =>
        match m.error with
        | some e => .error e
        | none =>
          let r := mkRecord cfg.topic m
          if passes fl r then consumeGo cfg fl rest (records ++ [r]) 0 (polls + 1)
          else consumeGo cfg fl rest records 0 (polls + 1)
termination_by stream _ retries _ => (stream.length, (cfg.maxRetries - retries).toNat)
decreasing_by
  all_goals simp_wf
  · right; omega
  · left; omega
  · left; omega
  · left; omega

/-- `ConsumerService.consume`: accumulator and retry counter start at
zero. -/
def consume (cfg : Cfg) (fl : Filters) (stream : List (Option Msg)) :
    Except String (List Record × Nat) :=
  consumeGo cfg fl stream [] 0 0

/-! ## Metadata aggregation engine (`TopicService.all`) -/

/-- Partition metadata from `list_topics` (only the id is consumed by
the aggregation logic; leader/replica/isr fields are copied through
verbatim and elided here). -/
structure PartitionMeta where
  id : Int
deriving DecidableEq, Repr

/-- Topic metadata from `list_topics`. -/
structure TopicMeta where
  topic : String
  partitions : List PartitionMeta
deriving DecidableEq, Repr

/-- One (topic, partition) entry of a member assignment. -/
structure AssignedTP where
  topic : String
  partition : Int
deriving DecidableEq, Repr

/-- Member description from `describe_consumer_groups` (identity
fields other than the member id are copied through verbatim). -/
structure MemberDesc where
  memberId : String
  assignment : List AssignedTP
deriving DecidableEq, Repr

/-- Consumer-group description from `describe_consumer_groups`
(assignor/state/coordinator are copied through verbatim). -/
structure GroupDesc where
  groupId : String
  members : List MemberDesc
deriving DecidableEq, Repr

/-- The domain `Partition` (watermark fields plus identity). -/
structure Partition where
  id : Int
  topic : String
  low : Int
  high : Int
deriving DecidableEq, Repr

/-- The domain `GroupPartition`. -/
structure GroupPartition where
  id : Int
  topic : String
  offset : Int
  group : String
  high : Int
  low : Int
deriving DecidableEq, Repr

/-- The domain `GroupMember` restricted to the fields the aggregation
computes (`assignment`) and identifies it by (`id`, `group`). -/
structure GroupMember where
  id : String
  group : String
  assignment : List Int
deriving DecidableEq, Repr

/-- The domain `Group`. -/
structure Group where
  id : String
  partitions : List GroupPartition
  members : List GroupMember
deriving DecidableEq, Repr

/-- The domain `Topic`. -/
structure Topic where
  name : String
  partitions : List Partition
  groups : List Group
deriving DecidableEq, Repr

/-- The broker as seen by the aggregation engine: the response to a
watermark lookup for a (topic, partition) — either the pair
`(low, high)` or a raised `KafkaException` — and the committed offset
reported for a (group, topic, partition) triple. -/
structure Broker where
  watermark : String → Int → Except Unit (Int × Int)
  committed : String → String → Int → Int

/-- Consumer-handle events emitted while aggregating, used to reason
about which handle performed which remote call.  Handles are numbered
in creation order within `_map_groups_into_topics`; `logged` records a
swallowed-and-logged watermark exception for a (topic, partition). -/
inductive Ev where
  | create (h : Nat) (groupId : String)
  | committed (h : Nat) (topic : String)
  | watermark (h : Nat) (topic : String) (partition : Int)
  | logged (topic : String) (partition : Int)
deriving DecidableEq, Repr

/-- True exactly on handle-creation events. -/
def Ev.isCreate : Ev → Bool
  | .create _ _ => true
  | _ => false

/-- The shared watermark-fetch pattern (`_get_watermarks`, and the
inline try/except of `_map_groups_into_topics` lines 298-310): default
`(0, 0)`, on `KafkaException` keep the default and log. -/
def getWatermarks (b : Broker) (t : String) (p : Int) : (Int × Int) × List Ev :=
  match b.watermark t p with
  | .ok lh => (lh, [])
  | .error _ => ((0, 0), [.logged t p])

/-- One `Partition` of `_map_topics` lines 350-365, with its logged
events. -/
def mkPartition (b : Broker) (t : String) (pm : PartitionMeta) : Partition × List Ev :=
  ((⟨pm.id, t, (getWatermarks b t pm.id).1.1, (getWatermarks b t pm.id).1.2⟩ : Partition),
   (getWatermarks b t pm.id).2)

/-- `_map_topics` for one topic: a `Topic` with empty `groups`. -/
def mapTopic (b : Broker) (tm : TopicMeta) : Topic :=
  ⟨tm.topic, tm.partitions.map (fun pm => (mkPartition b tm.topic pm).1), []⟩

/-- `_map_topics`: the topics plus the logged events of the per-topic
watermark lookups. -/
def mapTopics (b : Broker) (tmd : List TopicMeta) : List Topic × List Ev :=
  (tmd.map (mapTopic b),
   (tmd.map (fun tm => (tm.partitions.map
     (fun pm => (mkPartition b tm.topic pm).2)).flatten)).flatten)

/-- The committed-offset response for one (group, topic) pair
(`group_consumer.committed` line 288): one `(partition id, offset)`
per partition of the topic, in partition order. -/
def committedOffsets (b : Broker) (gid tname : String) (parts : List Partition) :
    List (Int × Int) :=
  parts.map (fun p => (p.id, b.committed gid tname p.id))

/-- One materialized `GroupPartition` (lines 312-319): watermarks come
from the group consumer, defaulting to `(0, 0)` on a logged failure. -/
def mkGroupPartition (b : Broker) (gid tname : String) (pc : Int × Int) : GroupPartition :=
  ⟨pc.1, tname, pc.2, gid, (getWatermarks b tname pc.1).1.2, (getWatermarks b tname pc.1).1.1⟩

/-- The `group.partitions` accumulated for one (group, topic) pair
(lines 294-321): sentinel offsets are skipped, the rest materialized. -/
def groupPartitions (b : Broker) (gid tname : String) (parts : List Partition) :
    List GroupPartition :=
  (committedOffsets b gid tname parts).filterMap (fun pc =>
    if pc.2 = OFFSET_INVALID then none else some (mkGroupPartition b gid tname pc))

/-- The handle events of one (group, topic) pair processed on handle
`h`: one committed fetch, then one watermark lookup (plus possibly a
logged exception) per non-sentinel partition. -/
def groupTopicEvents (b : Broker) (h : Nat) (gid tname : String)
    (parts : List Partition) : List Ev :=
  Ev.committed h tname ::
    ((committedOffsets b gid tname parts).map (fun pc =>
      if pc.2 = OFFSET_INVALID then []
      else Ev.watermark h tname pc.1 :: (getWatermarks b tname pc.1).2)).flatten

/-- The trimmed assignment of one member for one topic (lines
325-329): the partitions of the full assignment whose topic matches
this topic by name. -/
def trimmedAssignment (tname : String) (md : MemberDesc) : List Int :=
  (md.assignment.filter (fun tp => tname == tp.topic)).map (fun tp => tp.partition)

/-- The members attached for one (group, topic) pair (lines 324-339):
members whose trimmed assignment is non-empty. -/
def groupMembers (gm : GroupDesc) (tname : String) : List GroupMember :=
  gm.members.filterMap (fun md =>
    if 0 < (trimmedAssignment tname md).length
    then some ⟨md.memberId, gm.groupId, trimmedAssignment tname md⟩ else none)

/-- The inner body of `_map_groups_into_topics` for one group and one
topic: append a fresh `Group` iff at least one `GroupPartition` was
materialized. -/
def processGroupTopic (b : Broker) (gm : GroupDesc) (t : Topic) : Topic :=
  if 0 < (groupPartitions b gm.groupId t.name t.partitions).length then
    { t with groups := t.groups ++
        [⟨gm.groupId, groupPartitions b gm.groupId t.name t.partitions,
          groupMembers gm t.name⟩] }
  else t

/-- The outer loop of `_map_groups_into_topics` over the groups, each
group pass updating every topic in place. -/
def applyGroups (b : Broker) : List GroupDesc → List Topic → List Topic
  | [], ts => ts
  | gm :: rest, ts => applyGroups b rest (ts.map (processGroupTopic b gm))

/-- The handle-event trace of `_map_groups_into_topics`: per group one
consumer handle is created with that group id (line 267), then every
topic in turn gets its committed fetch and watermark lookups on that
same handle. -/
def groupsTrace (b : Broker) : List GroupDesc → Nat → List Topic → List Ev
  | [], _, _ => []
  | gm :: rest, h, ts =>
    (Ev.create h gm.groupId ::
      (ts.map (fun t => groupTopicEvents b h gm.groupId t.name t.partitions)).flatten)
      ++ groupsTrace b rest (h + 1) (ts.map (processGroupTopic b gm))

/-- `TopicService.all`: map the topics, then map the groups into them
(the dict keyed by unique names is modelled as the list of topics in
iteration order). -/
def allTopics (b : Broker) (tmd : List TopicMeta) (gmd : List GroupDesc) : List Topic :=
  applyGroups b gmd (mapTopics b tmd).1

/-- The full event trace of one `TopicService.all` run. -/
def allTrace (b : Broker) (tmd : List TopicMeta) (gmd : List GroupDesc) : List Ev :=
  (mapTopics b tmd).2 ++ groupsTrace b gmd 0 (mapTopics b tmd).1

/-- Pointwise form of the group loop: the accumulated effect of all
groups on one topic. -/
def groupsFold (b : Broker) (gmd : List GroupDesc) (t : Topic) : Topic :=
  gmd.foldl (fun t gm => processGroupTopic b gm t) t

/-! ## Concrete fixtures for witnesses and counterexamples -/

/-- A consumer configuration with the source defaults. -/
def cfgA : Cfg := { topic := "t" }

/-- A consumer configuration with `max_retries = 0`. -/
def cfgR0 : Cfg := { topic := "t", maxRetries := 0 }

/-- A consumer configuration with a negative `page_size`. -/
def cfgNeg : Cfg := { topic := "t", pageSize := -1 }

/-- A polled message carrying a broker-reported error. -/
def mErr : Msg := { error := some "boom" }

/-- An error-free polled message on partition 0. -/
def mP0 : Msg := {}

/-- A partition filter selecting partition 1. -/
def flP1 : Filters := { partition := some 1 }

/-- Two already-accumulated records. -/
def rec1 : Record := mkRecord "t" { keyStr := "a" }

/-- Second accumulated record. -/
def rec2 : Record := mkRecord "t" { keyStr := "b", offset := 1 }

/-- A broker whose watermark lookups succeed with `(0, 5)` and whose
committed offsets are all `7` (valid). -/
def b1 : Broker := ⟨fun _ _ => .ok (0, 5), fun _ _ _ => 7⟩

/-- A broker whose watermark lookups all raise and whose committed
offsets are all `7` (valid). -/
def bErr : Broker := ⟨fun _ _ => .error (), fun _ _ _ => 7⟩

/-- One topic `t` with a single partition 0. -/
def tm1 : TopicMeta := ⟨"t", [⟨0⟩]⟩

/-- The topic metadata list containing only `tm1`. -/
def tmd1 : List TopicMeta := [tm1]

/-- One group `g` whose single member is assigned partition 5 of topic
`t` (a partition id absent from the topic metadata). -/
def gm1 : GroupDesc := ⟨"g", [⟨"m", [⟨"t", 5⟩]⟩]⟩

/-- The group metadata list containing only `gm1`. -/
def gmd1 : List GroupDesc := [gm1]

/-- The topic `allTopics b1 tmd1 gmd1` produces. -/
def tW : Topic :=
  ⟨"t", [⟨0, "t", 0, 5⟩],
    [⟨"g", [⟨0, "t", 7, "g", 5, 0⟩], [⟨"m", "g", [5]⟩]⟩]⟩

/-- The property claim C4 asserts of every snapshot, specialized to
the consequence it directly implies: since each attached member
assignment is claimed to equal the intersection of the full assignment
with the partition ids present in `topic.partitions`, every id in it
is claimed to occur among the partitions of the topic. -/
def claimC4Prop (b : Broker) (tmd : List TopicMeta) (gmd : List GroupDesc) : Prop :=
  ∀ t ∈ allTopics b tmd gmd, ∀ g ∈ t.groups, ∀ m ∈ g.members,
    ∀ pid ∈ m.assignment, ∃ p ∈ t.partitions, p.id = pid

/-- The handle-isolation property claim C5 asserts of the trace: a
group-partition watermark lookup runs on a handle freshly created and
scoped to that single lookup, so its handle can never be the handle of
a committed-offset fetch. -/
def claimC5Prop (tr : List Ev) : Prop :=
  ∀ h t p, Ev.watermark h t p ∈ tr → ∀ tn, Ev.committed h tn ∉ tr

/-! ## Consumption loop: step equations -/

/-- When the page is full the loop exits at the while condition. -/
theorem consumeGo_full (cfg : Cfg) (fl : Filters) (stream : List (Option Msg))
    (records : List Record) (retries : Int) (polls : Nat)
    (h : ¬ ((records.length : Int) < cfg.pageSize)) :
    consumeGo cfg fl stream records retries polls = .ok (records, polls) := by
  rw [consumeGo.eq_def]
  simp [h]

/-- When the retry bound is hit the loop breaks, returning the page. -/
theorem consumeGo_stop (cfg : Cfg) (fl : Filters) (stream : List (Option Msg))
    (records : List Record) (retries : Int) (polls : Nat)
    (h : cfg.maxRetries ≤ retries) :
    consumeGo cfg fl stream records retries polls = .ok (records, polls) := by
  rw [consumeGo.eq_def]
  by_cases h1 : ¬ ((records.length : Int) < cfg.pageSize) <;> simp [h1, h]

/-- A silent poll on an exhausted stream increments the counter. -/
theorem consumeGo_nil (cfg : Cfg) (fl : Filters)
    (records : List Record) (retries : Int) (polls : Nat)
    (h1 : (records.length : Int) < cfg.pageSize) (h2 : ¬ cfg.maxRetries ≤ retries) :
    consumeGo cfg fl [] records retries polls
      = consumeGo cfg fl [] records (retries + 1) (polls + 1) := by
  conv_lhs => rw [consumeGo.eq_def]
  simp [h1, h2]

/-- A poll returning nothing increments the counter. -/
theorem consumeGo_none (cfg : Cfg) (fl : Filters) (rest : List (Option Msg))
    (records : List Record) (retries : Int) (polls : Nat)
    (h1 : (records.length : Int) < cfg.pageSize) (h2 : ¬ cfg.maxRetries ≤ retries) :
    consumeGo cfg fl (none :: rest) records retries polls
      = consumeGo cfg fl rest records (retries + 1) (polls + 1) := by
  conv_lhs => rw [consumeGo.eq_def]
  simp [h1, h2]

/-- A polled record carrying a broker error aborts the whole call. -/
theorem consumeGo_error (cfg : Cfg) (fl : Filters) (m : Msg) (e : String)
    (rest : List (Option Msg)) (records : List Record) (retries : Int) (polls : Nat)
    (h1 : (records.length : Int) < cfg.pageSize) (h2 : ¬ cfg.maxRetries ≤ retries)
    (he : m.error = some e) :
    consumeGo cfg fl (some m :: rest) records retries polls = .error e := by
  rw [consumeGo.eq_def]
  simp [h1, h2, he]

/-- An error-free record that passes the filters is appended and the
counter resets to zero. -/
theorem consumeGo_keep (cfg : Cfg) (fl : Filters) (m : Msg)
    (rest : List (Option Msg)) (records : List Record) (retries : Int) (polls : Nat)
    (h1 : (records.length : Int) < cfg.pageSize) (h2 : ¬ cfg.maxRetries ≤ retries)
    (he : m.error = none) (hp : passes fl (mkRecord cfg.topic m) = true) :
    consumeGo cfg fl (some m :: rest) records retries polls
      = consumeGo cfg fl rest (records ++ [mkRecord cfg.topic m]) 0 (polls + 1) := by
  conv_lhs => rw [consumeGo.eq_def]
  simp [h1, h2, he, hp]

/-- An error-free record that fails a filter is skipped, yet the
counter still resets to zero. -/
theorem consumeGo_skip (cfg : Cfg) (fl : Filters) (m : Msg)
    (rest : List (Option Msg)) (records : List Record) (retries : Int) (polls : Nat)
    (h1 : (records.length : Int) < cfg.pageSize) (h2 : ¬ cfg.maxRetries ≤ retries)
    (he : m.error = none) (hp : ¬ passes fl (mkRecord cfg.topic m) = true) :
    consumeGo cfg fl (some m :: rest) records retries polls
      = consumeGo cfg fl rest records 0 (polls + 1) := by
  conv_lhs => rw [consumeGo.eq_def]
  simp [h1, h2, he, hp]

/-- On a stream free of broker-reported errors the loop always
returns a page. -/
theorem consumeGo_ok_of_noError (cfg : Cfg) (fl : Filters) (stream : List (Option Msg))
    (records : List Record) (retries : Int) (polls : Nat)
    (h : ∀ m : Msg, some m ∈ stream → m.error = none) :
    ∃ res, consumeGo cfg fl stream records retries polls = .ok res := by
  revert h
  induction stream, records, retries, polls using consumeGo.induct cfg fl with
  | case1 stream records retries polls h1 =>
    exact fun _ => ⟨_, consumeGo_full cfg fl stream records retries polls h1⟩
  | case2 stream records retries polls h1 h2 =>
    exact fun _ => ⟨_, consumeGo_stop cfg fl stream records retries polls h2⟩
  | case3 records retries polls h1 h2 ih =>
    intro h
    rw [consumeGo_nil cfg fl records retries polls (not_not.mp h1) h2]
    exact ih (by simp)
  | case4 records retries polls h1 h2 rest ih =>
    intro h
    rw [consumeGo_none cfg fl rest records retries polls (not_not.mp h1) h2]
    exact ih (fun m hm => h m (List.mem_cons_of_mem _ hm))
  | case5 records retries polls h1 h2 m rest e he =>
    intro h
    exact absurd (h m (List.mem_cons_self _ _)) (by simp [he])
  | case6 records retries polls h1 h2 m rest he r hp ih =>
    intro h
    rw [consumeGo_keep cfg fl m rest records retries polls (not_not.mp h1) h2 he hp]
    exact ih (fun m hm => h m (List.mem_cons_of_mem _ hm))
  | case7 records retries polls h1 h2 m rest he r hp ih =>
    intro h
    rw [consumeGo_skip cfg fl m rest records retries polls (not_not.mp h1) h2 he hp]
    exact ih (fun m hm => h m (List.mem_cons_of_mem _ hm))

/-- The page produced by the loop never exceeds the larger of the
accumulator it started from and the page size. -/
theorem consumeGo_length_le (cfg : Cfg) (fl : Filters) (stream : List (Option Msg))
    (records : List Record) (retries : Int) (polls : Nat)
    (res : List Record × Nat)
    (h : consumeGo cfg fl stream records retries polls = .ok res) :
    (res.1.length : Int) ≤ max (records.length : Int) cfg.pageSize := by
  revert h
  induction stream, records, retries, polls using consumeGo.induct cfg fl with
  | case1 stream records retries polls h1 =>
    rw [consumeGo_full cfg fl stream records retries polls h1]
    intro h
    cases h
    exact le_max_left _ _
  | case2 stream records retries polls h1 h2 =>
    rw [consumeGo_stop cfg fl stream records retries polls h2]
    intro h
    cases h
    exact le_max_left _ _
  | case3 records retries polls h1 h2 ih =>
    rw [consumeGo_nil cfg fl records retries polls (not_not.mp h1) h2]
    exact ih
  | case4 records retries polls h1 h2 rest ih =>
    rw [consumeGo_none cfg fl rest records retries polls (not_not.mp h1) h2]
    exact ih
  | case5 records retries polls h1 h2 m rest e he =>
    rw [consumeGo_error cfg fl m e rest records retries polls (not_not.mp h1) h2 he]
    intro h
    cases h
  | case6 records retries polls h1 h2 m rest he r hp ih =>
    rw [consumeGo_keep cfg fl m rest records retries polls (not_not.mp h1) h2 he hp]
    intro h
    have hb := ih h
    have hlt := not_not.mp h1
    simp only [List.length_append, List.length_singleton] at hb
    push_cast at hb ⊢
    omega
  | case7 records retries polls h1 h2 m rest he r hp ih =>
    rw [consumeGo_skip cfg fl m rest records retries polls (not_not.mp h1) h2 he hp]
    exact ih

/-- Two filter sets accepting the same records drive identical runs. -/
theorem consumeGo_congr (cfg : Cfg) (fl1 fl2 : Filters)
    (hfl : ∀ r, passes fl1 r = passes fl2 r) (stream : List (Option Msg))
    (records : List Record) (retries : Int) (polls : Nat) :
    consumeGo cfg fl1 stream records retries polls
      = consumeGo cfg fl2 stream records retries polls := by
  induction stream, records, retries, polls using consumeGo.induct cfg fl1 with
  | case1 stream records retries polls h1 =>
    rw [consumeGo_full cfg fl1 stream records retries polls h1,
      consumeGo_full cfg fl2 stream records retries polls h1]
  | case2 stream records retries polls h1 h2 =>
    rw [consumeGo_stop cfg fl1 stream records retries polls h2,
      consumeGo_stop cfg fl2 stream records retries polls h2]
  | case3 records retries polls h1 h2 ih =>
    rw [consumeGo_nil cfg fl1 records retries polls (not_not.mp h1) h2,
      consumeGo_nil cfg fl2 records retries polls (not_not.mp h1) h2]
    exact ih
  | case4 records retries polls h1 h2 rest ih =>
    rw [consumeGo_none cfg fl1 rest records retries polls (not_not.mp h1) h2,
      consumeGo_none cfg fl2 rest records retries polls (not_not.mp h1) h2]
    exact ih
  | case5 records retries polls h1 h2 m rest e he =>
    rw [consumeGo_error cfg fl1 m e rest records retries polls (not_not.mp h1) h2 he,
      consumeGo_error cfg fl2 m e rest records retries polls (not_not.mp h1) h2 he]
  | case6 records retries polls h1 h2 m rest he r hp ih =>
    rw [consumeGo_keep cfg fl1 m rest records retries polls (not_not.mp h1) h2 he hp,
      consumeGo_keep cfg fl2 m rest records retries polls (not_not.mp h1) h2 he
        ((hfl (mkRecord cfg.topic m)) ▸ hp)]
    exact ih
  | case7 records retries polls h1 h2 m rest he r hp ih =>
    rw [consumeGo_skip cfg fl1 m rest records retries polls (not_not.mp h1) h2 he hp,
      consumeGo_skip cfg fl2 m rest records retries polls (not_not.mp h1) h2 he
        ((hfl (mkRecord cfg.topic m)) ▸ hp)]
    exact ih

/-! ## Claims on the consumption engine -/

/-- C2: if a poll returns a record carrying a broker-reported error,
`consume` raises that error; whatever records were already accumulated
in the call are dropped with it (all-or-nothing per call).  Conversely
this is the only failure outcome: on a stream in which no record
carries a broker-reported error the call always returns a page. -/
theorem claimC2 :
    (∀ (cfg : Cfg) (fl : Filters) (m : Msg) (e : String) (rest : List (Option Msg))
        (records : List Record) (retries : Int) (polls : Nat),
        (records.length : Int) < cfg.pageSize → ¬ cfg.maxRetries ≤ retries →
        m.error = some e →
        consumeGo cfg fl (some m :: rest) records retries polls = .error e)
    ∧ (∀ (cfg : Cfg) (fl : Filters) (stream : List (Option Msg)),
        (∀ m : Msg, some m ∈ stream → m.error = none) →
        ∃ res, consume cfg fl stream = .ok res) :=
  ⟨fun cfg fl m e rest records retries polls h1 h2 he =>
      consumeGo_error cfg fl m e rest records retries polls h1 h2 he,
   fun cfg fl stream h => consumeGo_ok_of_noError cfg fl stream [] 0 0 h⟩

/-- Witness for C2: an error record polled with two records already
accumulated aborts the call with the broker error, returning nothing. -/
theorem claimC2_witness :
    consumeGo cfgA {} [some mErr] [rec1, rec2] 0 0 = .error "boom" :=
  claimC2.1 cfgA {} mErr "boom" [] [rec1, rec2] 0 0 (by decide) (by decide) (by decide)

/-- C3: receiving any non-error record resets the consecutive-empty-
poll counter to zero, even when the record then fails an active filter
(in which case it is excluded from the page but does not touch the
counter); only a poll returning nothing increments the counter. -/
theorem claimC3 :
    (∀ (cfg : Cfg) (fl : Filters) (m : Msg) (rest : List (Option Msg))
        (records : List Record) (retries : Int) (polls : Nat),
        (records.length : Int) < cfg.pageSize → ¬ cfg.maxRetries ≤ retries →
        m.error = none → ¬ passes fl (mkRecord cfg.topic m) = true →
        consumeGo cfg fl (some m :: rest) records retries polls
          = consumeGo cfg fl rest records 0 (polls + 1))
    ∧ (∀ (cfg : Cfg) (fl : Filters) (m : Msg) (rest : List (Option Msg))
        (records : List Record) (retries : Int) (polls : Nat),
        (records.length : Int) < cfg.pageSize → ¬ cfg.maxRetries ≤ retries →
        m.error = none → passes fl (mkRecord cfg.topic m) = true →
        consumeGo cfg fl (some m :: rest) records retries polls
          = consumeGo cfg fl rest (records ++ [mkRecord cfg.topic m]) 0 (polls + 1))
    ∧ (∀ (cfg : Cfg) (fl : Filters) (rest : List (Option Msg))
        (records : List Record) (retries : Int) (polls : Nat),
        (records.length : Int) < cfg.pageSize → ¬ cfg.maxRetries ≤ retries →
        consumeGo cfg fl (none :: rest) records retries polls
          = consumeGo cfg fl rest records (retries + 1) (polls + 1)) :=
  ⟨fun cfg fl m rest records retries polls h1 h2 he hp =>
      consumeGo_skip cfg fl m rest records retries polls h1 h2 he hp,
   fun cfg fl m rest records retries polls h1 h2 he hp =>
      consumeGo_keep cfg fl m rest records retries polls h1 h2 he hp,
   fun cfg fl rest records retries polls h1 h2 =>
      consumeGo_none cfg fl rest records retries polls h1 h2⟩

/-- Witness for C3: a record on partition 0 received under an active
partition-1 filter with the counter at 4 is excluded from the page,
yet the counter resets to 0 rather than rising to 5. -/
theorem claimC3_witness :
    consumeGo cfgA flP1 [some mP0] [] 4 0 = consumeGo cfgA flP1 [] [] 0 1 :=
  claimC3.1 cfgA flP1 mP0 [] [] 4 0 (by decide) (by decide) (by decide) (by decide)

/-- C6: once the consecutive-empty-poll counter has reached the retry
bound, the call stops polling and returns exactly the records (and
poll count) accumulated so far, as a success. -/
theorem claimC6 (cfg : Cfg) (fl : Filters) (stream : List (Option Msg))
    (records : List Record) (retries : Int) (polls : Nat)
    (h : cfg.maxRetries ≤ retries) :
    consumeGo cfg fl stream records retries polls = .ok (records, polls) :=
  consumeGo_stop cfg fl stream records retries polls h

/-- Witness for C6: with the counter at 7 against a bound of 5 the
loop returns the single accumulated record, never polling the pending
error message. -/
theorem claimC6_witness :
    consumeGo cfgA {} [some mErr] [rec1] 7 3 = .ok ([rec1], 3) :=
  claimC6 cfgA {} [some mErr] [rec1] 7 3 (by decide)

/-- C7 (amended): every page returned by `consume` has length at most
`max page_size 0`; the bound `page_size` itself holds whenever
`page_size` is non-negative, but a negative `page_size` yields the
empty page, whose length 0 exceeds it. -/
theorem claimC7 (cfg : Cfg) (fl : Filters) (stream : List (Option Msg))
    (res : List Record × Nat) (h : consume cfg fl stream = .ok res) :
    (res.1.length : Int) ≤ max cfg.pageSize 0 := by
  have hb := consumeGo_length_le cfg fl stream [] 0 0 res h
  simp only [List.length_nil, Nat.cast_zero] at hb
  exact hb.trans_eq (max_comm 0 cfg.pageSize)

/-- Counterexample to C7 as stated: with `page_size = -1` the call
returns the empty page, whose length 0 is not at most `page_size`. -/
theorem claimC7_cex :
    consume cfgNeg {} [] = .ok ([], 0) ∧ ¬ ((0 : Int) ≤ cfgNeg.pageSize) :=
  ⟨consumeGo_full cfgNeg {} [] [] 0 0 (by decide), by decide⟩

/-- Witness for C7: a run returning the empty page satisfies the
amended bound. -/
theorem claimC7_witness :
    ((([] : List Record), (0 : Nat)).1.length : Int) ≤ max cfgR0.pageSize 0 :=
  claimC7 cfgR0 {} [] ([], 0) (consumeGo_stop cfgR0 {} [] [] 0 0 (by decide))

/-- C9: with `max_retries ≤ 0` or `page_size ≤ 0` the call returns the
empty page immediately, issuing zero polls, because both bounds are
checked before the first poll. -/
theorem claimC9 (cfg : Cfg) (fl : Filters) (stream : List (Option Msg))
    (h : cfg.maxRetries ≤ 0 ∨ cfg.pageSize ≤ 0) :
    consume cfg fl stream = .ok ([], 0) := by
  rcases h with h | h
  · exact consumeGo_stop cfg fl stream [] 0 0 h
  · apply consumeGo_full
    simp only [List.length_nil, Nat.cast_zero]
    omega

/-- Witness for C9: with `max_retries = 0` the pending error message
is never polled and the empty page returns with a poll count of 0. -/
theorem claimC9_witness : consume cfgR0 {} [some mErr] = .ok ([], 0) :=
  claimC9 cfgR0 {} [some mErr] (Or.inl (by decide))

/-- C10: an empty-string key/value/header filter is treated as absent
(the whole run is unchanged by replacing it with None), whereas the
partition filter is active for every non-None value including 0: a
record passes it exactly when its partition equals the filter value. -/
theorem claimC10 :
    (∀ (cfg : Cfg) (fl : Filters) (stream : List (Option Msg)),
        consume cfg { fl with key := some "" } stream
          = consume cfg { fl with key := none } stream)
    ∧ (∀ (cfg : Cfg) (fl : Filters) (stream : List (Option Msg)),
        consume cfg { fl with value := some "" } stream
          = consume cfg { fl with value := none } stream)
    ∧ (∀ (cfg : Cfg) (fl : Filters) (stream : List (Option Msg)),
        consume cfg { fl with header := some "" } stream
          = consume cfg { fl with header := none } stream)
    ∧ (∀ (fl : Filters) (p : Int) (r : Record),
        passes { fl with partition := some p } r
          = ((r.partition == p) && passes { fl with partition := none } r)) := by
  refine ⟨?_, ?_, ?_, ?_⟩
  · intro cfg fl stream
    exact consumeGo_congr cfg _ _ (fun r => by simp [passes]) stream [] 0 0
  · intro cfg fl stream
    exact consumeGo_congr cfg _ _ (fun r => by simp [passes]) stream [] 0 0
  · intro cfg fl stream
    exact consumeGo_congr cfg _ _ (fun r => by simp [passes]) stream [] 0 0
  · intro fl p r
    simp [passes, Bool.and_assoc]

/-! ## Aggregation engine: structural lemmas -/

/-- Processing a group leaves the topic name unchanged. -/
theorem processGroupTopic_name (b : Broker) (gm : GroupDesc) (t : Topic) :
    (processGroupTopic b gm t).name = t.name := by
  unfold processGroupTopic
  split <;> rfl

/-- Processing a group leaves the topic partitions unchanged. -/
theorem processGroupTopic_partitions (b : Broker) (gm : GroupDesc) (t : Topic) :
    (processGroupTopic b gm t).partitions = t.partitions := by
  unfold processGroupTopic
  split <;> rfl

/-- Unfolding of the per-topic group fold. -/
theorem groupsFold_cons (b : Broker) (gm : GroupDesc) (rest : List GroupDesc) (t : Topic) :
    groupsFold b (gm :: rest) t = groupsFold b rest (processGroupTopic b gm t) := rfl

/-- The group fold leaves the topic name unchanged. -/
theorem groupsFold_name (b : Broker) (gmd : List GroupDesc) (t : Topic) :
    (groupsFold b gmd t).name = t.name := by
  induction gmd generalizing t with
  | nil => rfl
  | cons gm rest ih => rw [groupsFold_cons, ih, processGroupTopic_name]

/-- The group fold leaves the topic partitions unchanged. -/
theorem groupsFold_partitions (b : Broker) (gmd : List GroupDesc) (t : Topic) :
    (groupsFold b gmd t).partitions = t.partitions := by
  induction gmd generalizing t with
  | nil => rfl
  | cons gm rest ih => rw [groupsFold_cons, ih, processGroupTopic_partitions]

/-- The group-into-topics loop acts on each topic independently. -/
theorem applyGroups_eq_map (b : Broker) (gmd : List GroupDesc) (ts : List Topic) :
    applyGroups b gmd ts = ts.map (groupsFold b gmd) := by
  induction gmd generalizing ts with
  | nil =>
    rw [applyGroups]
    exact (List.map_id' ts).symm
  | cons gm rest ih =>
    rw [applyGroups, ih, List.map_map]
    rfl

/-- Characterization of the groups attached to a topic: exactly the
groups of the input plus, for each group description that materialized
at least one group partition, the freshly built `Group`. -/
theorem mem_groupsFold_groups (b : Broker) (gmd : List GroupDesc) (t : Topic) (g : Group) :
    g ∈ (groupsFold b gmd t).groups ↔
      g ∈ t.groups ∨ ∃ gm ∈ gmd,
        0 < (groupPartitions b gm.groupId t.name t.partitions).length ∧
        g = ⟨gm.groupId, groupPartitions b gm.groupId t.name t.partitions,
             groupMembers gm t.name⟩ := by
  induction gmd generalizing t with
  | nil => simp [groupsFold]
  | cons gm rest ih =>
    rw [groupsFold_cons, ih, processGroupTopic_name, processGroupTopic_partitions]
    by_cases hc : 0 < (groupPartitions b gm.groupId t.name t.partitions).length
    · simp only [processGroupTopic, if_pos hc, List.mem_append, List.mem_cons]
      constructor
      · rintro ((hg | hg | hg0) | ⟨gm1, hgm1, hcond, hg⟩)
        · exact Or.inl hg
        · exact Or.inr ⟨gm, Or.inl rfl, hc, hg⟩
        · exact absurd hg0 (List.not_mem_nil g)
        · exact Or.inr ⟨gm1, Or.inr hgm1, hcond, hg⟩
      · rintro (hg | ⟨gm1, (rfl | hgm1), hcond, hg⟩)
        · exact Or.inl (Or.inl hg)
        · exact Or.inl (Or.inr (Or.inl hg))
        · exact Or.inr ⟨gm1, hgm1, hcond, hg⟩
    · simp only [processGroupTopic, if_neg hc, List.mem_cons]
      constructor
      · rintro (hg | ⟨gm1, hgm1, hcond, hg⟩)
        · exact Or.inl hg
        · exact Or.inr ⟨gm1, Or.inr hgm1, hcond, hg⟩
      · rintro (hg | ⟨gm1, (rfl | hgm1), hcond, hg⟩)
        · exact Or.inl hg
        · exact absurd hcond hc
        · exact Or.inr ⟨gm1, hgm1, hcond, hg⟩

/-- At least one group partition materializes exactly when some
partition of the topic has a non-sentinel committed offset. -/
theorem groupPartitions_pos (b : Broker) (gid tname : String) (parts : List Partition) :
    0 < (groupPartitions b gid tname parts).length ↔
      ∃ p ∈ parts, b.committed gid tname p.id ≠ OFFSET_INVALID := by
  rw [List.length_pos, Ne, List.eq_nil_iff_forall_not_mem]
  push_neg
  simp only [groupPartitions, committedOffsets, List.mem_filterMap, List.mem_map]
  constructor
  · rintro ⟨gp, pc, ⟨p, hp, rfl⟩, hf⟩
    by_cases hs : b.committed gid tname p.id = OFFSET_INVALID
    · simp [hs] at hf
    · exact ⟨p, hp, hs⟩
  · rintro ⟨p, hp, hs⟩
    exact ⟨mkGroupPartition b gid tname (p.id, b.committed gid tname p.id),
      (p.id, b.committed gid tname p.id), ⟨p, hp, rfl⟩, by simp [hs]⟩

/-- Membership in the materialized group partitions of a (group,
topic) pair. -/
theorem mem_groupPartitions (b : Broker) (gid tname : String) (parts : List Partition)
    (gp : GroupPartition) :
    gp ∈ groupPartitions b gid tname parts ↔
      ∃ p ∈ parts, b.committed gid tname p.id ≠ OFFSET_INVALID ∧
        gp = mkGroupPartition b gid tname (p.id, b.committed gid tname p.id) := by
  simp only [groupPartitions, committedOffsets, List.mem_filterMap, List.mem_map]
  constructor
  · rintro ⟨pc, ⟨p, hp, rfl⟩, hf⟩
    by_cases hs : b.committed gid tname p.id = OFFSET_INVALID
    · simp [hs] at hf
    · simp only [if_neg hs, Option.some_inj] at hf
      exact ⟨p, hp, hs, hf.symm⟩
  · rintro ⟨p, hp, hs, rfl⟩
    exact ⟨(p.id, b.committed gid tname p.id), ⟨p, hp, rfl⟩, by simp [hs]⟩

/-- Membership in the members attached for a (group, topic) pair. -/
theorem mem_groupMembers (gm : GroupDesc) (tname : String) (m : GroupMember) :
    m ∈ groupMembers gm tname ↔
      ∃ md ∈ gm.members, 0 < (trimmedAssignment tname md).length ∧
        m = ⟨md.memberId, gm.groupId, trimmedAssignment tname md⟩ := by
  simp only [groupMembers, List.mem_filterMap]
  constructor
  · rintro ⟨md, hmd, hf⟩
    by_cases hs : 0 < (trimmedAssignment tname md).length
    · simp only [if_pos hs, Option.some_inj] at hf
      exact ⟨md, hmd, hs, hf.symm⟩
    · simp [hs] at hf
  · rintro ⟨md, hmd, hs, rfl⟩
    exact ⟨md, hmd, by simp [hs]⟩

/-- Topics produced by `_map_topics` carry no groups yet. -/
theorem mapTopics_groups_nil (b : Broker) (tmd : List TopicMeta) (t0 : Topic)
    (ht0 : t0 ∈ (mapTopics b tmd).1) : t0.groups = [] := by
  simp only [mapTopics, List.mem_map] at ht0
  obtain ⟨tm, _, rfl⟩ := ht0
  rfl

/-- Shape of the events of one (group, topic) pair: the committed
fetch, watermark lookups on the same handle and topic, and logged
exceptions; never a handle creation. -/
theorem gte_cases (b : Broker) (h : Nat) (gid tname : String) (parts : List Partition) :
    ∀ e ∈ groupTopicEvents b h gid tname parts,
      e = Ev.committed h tname ∨ (∃ p, e = Ev.watermark h tname p) ∨
        ∃ tn p, e = Ev.logged tn p := by
  intro e he
  rw [groupTopicEvents] at he
  rcases List.mem_cons.mp he with rfl | he2
  · exact Or.inl rfl
  · obtain ⟨l, hl, hel⟩ := List.mem_flatten.mp he2
    obtain ⟨pc, hpc, rfl⟩ := List.mem_map.mp hl
    by_cases hs : pc.2 = OFFSET_INVALID
    · simp [hs] at hel
    · simp only [if_neg hs] at hel
      rcases List.mem_cons.mp hel with rfl | hel2
      · exact Or.inr (Or.inl ⟨pc.1, rfl⟩)
      · rcases hw : b.watermark tname pc.1 with u | lh
        · simp only [getWatermarks, hw] at hel2
          rcases List.mem_cons.mp hel2 with rfl | h0
          · exact Or.inr (Or.inr ⟨tname, pc.1, rfl⟩)
          · exact absurd h0 (List.not_mem_nil e)
        · simp [getWatermarks, hw] at hel2

/-- Any watermark event of a (group, topic) pair runs on that pair's
handle and names that pair's topic. -/
theorem gte_watermark (b : Broker) (h : Nat) (gid tname : String) (parts : List Partition)
    (hId : Nat) (tn : String) (p : Int)
    (hw : Ev.watermark hId tn p ∈ groupTopicEvents b h gid tname parts) :
    hId = h ∧ tn = tname := by
  rcases gte_cases b h gid tname parts _ hw with heq | ⟨q, heq⟩ | ⟨tn1, q, heq⟩
  · cases heq
  · cases heq
    exact ⟨rfl, rfl⟩
  · cases heq

/-- The events of a (group, topic) pair never create a handle. -/
theorem gte_noCreate (b : Broker) (h : Nat) (gid tname : String) (parts : List Partition) :
    ∀ e ∈ groupTopicEvents b h gid tname parts, ¬ Ev.isCreate e := by
  intro e he
  rcases gte_cases b h gid tname parts e he with heq | ⟨q, heq⟩ | ⟨tn1, q, heq⟩ <;>
    subst heq <;> simp [Ev.isCreate]

/-- Every event of a processed (group, topic) pair appears in the full
group-phase trace, on the handle assigned to that group. -/
theorem groupsTrace_cover (b : Broker) (gm : GroupDesc) :
    ∀ (gmd : List GroupDesc), gm ∈ gmd → ∀ (h0 : Nat) (ts : List Topic) (t : Topic),
      t ∈ ts →
      ∃ hh, ∀ e ∈ groupTopicEvents b hh gm.groupId t.name t.partitions,
        e ∈ groupsTrace b gmd h0 ts := by
  intro gmd
  induction gmd with
  | nil => intro h; cases h
  | cons gm1 rest ih =>
    intro hgm h0 ts t ht
    rw [groupsTrace]
    rcases List.mem_cons.mp hgm with rfl | hgm2
    · refine ⟨h0, fun e he => ?_⟩
      apply List.mem_append_left
      apply List.mem_cons_of_mem
      exact List.mem_flatten.mpr ⟨_, List.mem_map_of_mem _ ht, he⟩
    · obtain ⟨hh, hcov⟩ := ih hgm2 (h0 + 1) (ts.map (processGroupTopic b gm1))
        (processGroupTopic b gm1 t) (List.mem_map_of_mem _ ht)
      rw [processGroupTopic_name, processGroupTopic_partitions] at hcov
      exact ⟨hh, fun e he => List.mem_append_right _ (hcov e he)⟩

/-! ## Claims on the aggregation engine -/

/-- C1: in every snapshot a group appears in `topic.groups` iff the
committed-offset fetch for that (group, topic) pair yielded at least
one partition with a non-sentinel committed offset; and no attached
group ever holds a `GroupPartition` with the sentinel offset. -/
theorem claimC1 (b : Broker) (tmd : List TopicMeta) (gmd : List GroupDesc)
    (gm : GroupDesc) (hgm : gm ∈ gmd) :
    ∀ t ∈ allTopics b tmd gmd,
      ((∃ g ∈ t.groups, g.id = gm.groupId) ↔
        ∃ p ∈ t.partitions, b.committed gm.groupId t.name p.id ≠ OFFSET_INVALID)
      ∧ ∀ g ∈ t.groups, ∀ gp ∈ g.partitions, gp.offset ≠ OFFSET_INVALID := by
  intro t ht
  rw [allTopics, applyGroups_eq_map, List.mem_map] at ht
  obtain ⟨t0, ht0, rfl⟩ := ht
  have hg0 : t0.groups = [] := mapTopics_groups_nil b tmd t0 ht0
  constructor
  · rw [groupsFold_name, groupsFold_partitions]
    constructor
    · rintro ⟨g, hgmem, hgid⟩
      rw [mem_groupsFold_groups, hg0] at hgmem
      rcases hgmem with h0 | ⟨gm1, hgm1, hcond, rfl⟩
      · exact absurd h0 (List.not_mem_nil g)
      · have hid : gm1.groupId = gm.groupId := hgid
        rw [groupPartitions_pos, hid] at hcond
        exact hcond
    · rintro ⟨p, hp, hs⟩
      refine ⟨⟨gm.groupId, groupPartitions b gm.groupId t0.name t0.partitions,
        groupMembers gm t0.name⟩, ?_, rfl⟩
      rw [mem_groupsFold_groups, hg0]
      refine Or.inr ⟨gm, hgm, ?_, rfl⟩
      rw [groupPartitions_pos]
      exact ⟨p, hp, hs⟩
  · intro g hgmem gp hgp
    rw [mem_groupsFold_groups, hg0] at hgmem
    rcases hgmem with h0 | ⟨gm1, hgm1, hcond, rfl⟩
    · exact absurd h0 (List.not_mem_nil g)
    · have hgp2 : gp ∈ groupPartitions b gm1.groupId t0.name t0.partitions := hgp
      rw [mem_groupPartitions] at hgp2
      obtain ⟨p, hp, hs, rfl⟩ := hgp2
      simpa [mkGroupPartition] using hs

/-- Witness for C1: on a one-topic, one-group cluster with committed
offset 7 the group is attached and its only group partition carries
offset 7, not the sentinel. -/
theorem claimC1_witness :
    ((∃ g ∈ tW.groups, g.id = gm1.groupId) ↔
      ∃ p ∈ tW.partitions, b1.committed gm1.groupId tW.name p.id ≠ OFFSET_INVALID)
    ∧ ∀ g ∈ tW.groups, ∀ gp ∈ g.partitions, gp.offset ≠ OFFSET_INVALID :=
  claimC1 b1 tmd1 gmd1 gm1 (by decide) tW (by decide)

/-- C4 (amended): every member attached to a topic group has a
non-empty assignment equal to the member full assignment restricted,
by topic NAME, to entries for this topic, projected to partition ids;
the source does not intersect with the partition ids actually present
in `topic.partitions`. -/
theorem claimC4 (b : Broker) (tmd : List TopicMeta) (gmd : List GroupDesc) :
    ∀ t ∈ allTopics b tmd gmd, ∀ g ∈ t.groups, ∀ m ∈ g.members,
      m.assignment ≠ [] ∧
      ∃ gm ∈ gmd, gm.groupId = g.id ∧ ∃ md ∈ gm.members,
        md.memberId = m.id ∧ m.assignment = trimmedAssignment t.name md := by
  intro t ht g hgmem m hm
  rw [allTopics, applyGroups_eq_map, List.mem_map] at ht
  obtain ⟨t0, ht0, rfl⟩ := ht
  have hg0 : t0.groups = [] := mapTopics_groups_nil b tmd t0 ht0
  rw [mem_groupsFold_groups, hg0] at hgmem
  rcases hgmem with h0 | ⟨gm1, hgm1, hcond, rfl⟩
  · exact absurd h0 (List.not_mem_nil g)
  · have hm2 : m ∈ groupMembers gm1 t0.name := hm
    rw [mem_groupMembers] at hm2
    obtain ⟨md, hmd, hlen, rfl⟩ := hm2
    refine ⟨List.length_pos.mp hlen, gm1, hgm1, rfl, md, hmd, rfl, ?_⟩
    rw [groupsFold_name]

/-- Counterexample to C4 as stated: in the snapshot of `b1`, `tmd1`,
`gmd1` a member is attached whose trimmed assignment contains
partition 5, a partition id that does not occur in the topic, so the
assignment is not the intersection with the topic partition ids (and
that intersection is empty, yet the member is attached). -/
theorem claimC4_cex : ¬ claimC4Prop b1 tmd1 gmd1 := by
  unfold claimC4Prop
  decide

/-- Witness for C4: the attached member of the fixture snapshot has
the non-empty name-trimmed assignment `[5]`. -/
theorem claimC4_witness :
    (⟨"m", "g", [5]⟩ : GroupMember).assignment ≠ [] ∧
    ∃ gm ∈ gmd1,
      gm.groupId = (⟨"g", [⟨0, "t", 7, "g", 5, 0⟩], [⟨"m", "g", [5]⟩]⟩ : Group).id ∧
      ∃ md ∈ gm.members, md.memberId = (⟨"m", "g", [5]⟩ : GroupMember).id ∧
        (⟨"m", "g", [5]⟩ : GroupMember).assignment = trimmedAssignment tW.name md :=
  claimC4 b1 tmd1 gmd1 tW (by decide)
    ⟨"g", [⟨0, "t", 7, "g", 5, 0⟩], [⟨"m", "g", [5]⟩]⟩ (by decide)
    ⟨"m", "g", [5]⟩ (by decide)

/-- C5 (amended): every group-partition watermark lookup runs on the
per-group consumer handle — the same handle that performed the
committed-offset fetch of that topic — and exactly one handle is
created per group, reused across all topics and lookups of that
group, rather than a fresh scoped handle per lookup or per (group,
topic) pair. -/
theorem claimC5 (b : Broker) (gmd : List GroupDesc) (h0 : Nat) (ts : List Topic) :
    (∀ hId tn p, Ev.watermark hId tn p ∈ groupsTrace b gmd h0 ts →
        Ev.committed hId tn ∈ groupsTrace b gmd h0 ts ∧
        ∃ gid, Ev.create hId gid ∈ groupsTrace b gmd h0 ts)
    ∧ (groupsTrace b gmd h0 ts).countP Ev.isCreate = gmd.length := by
  induction gmd generalizing h0 ts with
  | nil => simp [groupsTrace]
  | cons gm rest ih =>
    obtain ⟨ihm, ihc⟩ := ih (h0 + 1) (ts.map (processGroupTopic b gm))
    constructor
    · intro hId tn p hw
      rw [groupsTrace] at hw
      rcases List.mem_append.mp hw with hw1 | hw2
      · rcases List.mem_cons.mp hw1 with heq | hw1b
        · cases heq
        · obtain ⟨l, hl, hel⟩ := List.mem_flatten.mp hw1b
          obtain ⟨t, htmem, rfl⟩ := List.mem_map.mp hl
          obtain ⟨rfl, rfl⟩ := gte_watermark b h0 gm.groupId t.name t.partitions hId tn p hel
          constructor
          · rw [groupsTrace]
            apply List.mem_append_left
            apply List.mem_cons_of_mem
            exact List.mem_flatten.mpr
              ⟨_, List.mem_map_of_mem _ htmem, List.mem_cons_self _ _⟩
          · refine ⟨gm.groupId, ?_⟩
            rw [groupsTrace]
            exact List.mem_append_left _ (List.mem_cons_self _ _)
      · obtain ⟨hcm, gid, hcr⟩ := ihm hId tn p hw2
        refine ⟨?_, gid, ?_⟩ <;> rw [groupsTrace]
        · exact List.mem_append_right _ hcm
        · exact List.mem_append_right _ hcr
    · rw [groupsTrace, List.countP_append]
      have hz : (ts.map (fun t =>
          groupTopicEvents b h0 gm.groupId t.name t.partitions)).flatten.countP
            Ev.isCreate = 0 := by
        rw [List.countP_eq_zero]
        intro e he
        obtain ⟨l, hl, hel⟩ := List.mem_flatten.mp he
        obtain ⟨t, htmem, rfl⟩ := List.mem_map.mp hl
        exact gte_noCreate b h0 gm.groupId t.name t.partitions e hel
      rw [List.countP_cons_of_pos _ _ (by rfl), hz, ihc, List.length_cons]
      omega

/-- Counterexample to C5 as stated: in the trace of the fixture
snapshot the watermark lookup for partition 0 of topic `t` runs on
handle 0, the very handle that performed the committed-offset fetch —
not a handle scoped to that single lookup. -/
theorem claimC5_cex : ¬ claimC5Prop (allTrace b1 tmd1 gmd1) :=
  fun hcl => hcl 0 "t" 0 (by decide) "t" (by decide)

/-- Witness for C5: in the fixture trace the watermark on handle 0
shares its handle with a committed fetch, and handle 0 was created for
the group. -/
theorem claimC5_witness :
    Ev.committed 0 "t" ∈ groupsTrace b1 gmd1 0 (mapTopics b1 tmd1).1 ∧
    ∃ gid, Ev.create 0 gid ∈ groupsTrace b1 gmd1 0 (mapTopics b1 tmd1).1 :=
  (claimC5 b1 gmd1 0 (mapTopics b1 tmd1).1).1 0 "t" 0 (by decide)

/-- C8: a watermark lookup that raises degrades that partition to the
`(0, 0)` default, logs the exception, and never aborts the snapshot:
the topic partition still appears in the returned snapshot, and a
group partition built over a failing lookup carries the zero
watermarks while the snapshot completes. -/
theorem claimC8 (b : Broker) (tmd : List TopicMeta) (gmd : List GroupDesc) :
    (∀ tm ∈ tmd, ∀ pm ∈ tm.partitions, b.watermark tm.topic pm.id = .error () →
      (∃ t ∈ allTopics b tmd gmd, t.name = tm.topic ∧
        ∃ p ∈ t.partitions, p.id = pm.id ∧ p.low = 0 ∧ p.high = 0) ∧
      Ev.logged tm.topic pm.id ∈ allTrace b tmd gmd)
    ∧ (∀ t ∈ allTopics b tmd gmd, ∀ g ∈ t.groups, ∀ gp ∈ g.partitions,
        b.watermark gp.topic gp.id = .error () →
        gp.low = 0 ∧ gp.high = 0 ∧ Ev.logged gp.topic gp.id ∈ allTrace b tmd gmd) := by
  constructor
  · intro tm htm pm hpm herr
    constructor
    · refine ⟨groupsFold b gmd (mapTopic b tm), ?_, ?_, ?_⟩
      · rw [allTopics, applyGroups_eq_map]
        exact List.mem_map_of_mem _ (List.mem_map_of_mem _ htm)
      · rw [groupsFold_name]
        rfl
      · rw [groupsFold_partitions]
        refine ⟨(mkPartition b tm.topic pm).1, List.mem_map_of_mem _ hpm, rfl, ?_, ?_⟩
        · simp [mkPartition, getWatermarks, herr]
        · simp [mkPartition, getWatermarks, herr]
    · rw [allTrace]
      apply List.mem_append_left
      have h1 : Ev.logged tm.topic pm.id ∈ (mkPartition b tm.topic pm).2 := by
        simp [mkPartition, getWatermarks, herr]
      have h3 : Ev.logged tm.topic pm.id ∈
          (tm.partitions.map (fun pm => (mkPartition b tm.topic pm).2)).flatten :=
        List.mem_flatten.mpr ⟨_, List.mem_map_of_mem _ hpm, h1⟩
      exact List.mem_flatten.mpr ⟨_, List.mem_map_of_mem _ htm, h3⟩
  · intro t ht g hgmem gp hgp herr
    rw [allTopics, applyGroups_eq_map, List.mem_map] at ht
    obtain ⟨t0, ht0, rfl⟩ := ht
    have hg0 : t0.groups = [] := mapTopics_groups_nil b tmd t0 ht0
    rw [mem_groupsFold_groups, hg0] at hgmem
    rcases hgmem with h0 | ⟨gm1, hgm1, hcond, rfl⟩
    · exact absurd h0 (List.not_mem_nil g)
    · have hgp2 : gp ∈ groupPartitions b gm1.groupId t0.name t0.partitions := hgp
      rw [mem_groupPartitions] at hgp2
      obtain ⟨p, hp, hs, rfl⟩ := hgp2
      have herr2 : b.watermark t0.name p.id = .error () := herr
      refine ⟨?_, ?_, ?_⟩
      · simp [mkGroupPartition, getWatermarks, herr2]
      · simp [mkGroupPartition, getWatermarks, herr2]
      · rw [allTrace]
        apply List.mem_append_right
        obtain ⟨hh, hcov⟩ := groupsTrace_cover b gm1 gmd hgm1 0 (mapTopics b tmd).1 t0 ht0
        apply hcov
        rw [groupTopicEvents]
        apply List.mem_cons_of_mem
        apply List.mem_flatten.mpr
        refine ⟨_, List.mem_map_of_mem _ (List.mem_map_of_mem _ hp), ?_⟩
        simp [mkGroupPartition, hs, getWatermarks, herr2]

/-- Witness for C8: with every watermark lookup failing, the snapshot
still contains topic `t` with its partition 0 at watermarks `(0, 0)`,
and the exception is logged in the trace. -/
theorem claimC8_witness :
    (∃ t ∈ allTopics bErr tmd1 gmd1, t.name = tm1.topic ∧
      ∃ p ∈ t.partitions, p.id = (⟨0⟩ : PartitionMeta).id ∧ p.low = 0 ∧ p.high = 0)
    ∧ Ev.logged tm1.topic (⟨0⟩ : PartitionMeta).id ∈ allTrace bErr tmd1 gmd1 :=
  (claimC8 bErr tmd1 gmd1).1 tm1 (by decide) ⟨0⟩ (by decide) rfl

end Kaskade
